import Mathlib

/-!
# Verification of the qmt_weight_sync rebalance engine

Shallow embedding of the rebalance execution engine (`core/trader.py`), the
trading-calendar service (`utils/trading_calendar.py`) and the status store
(`utils/status_manager.py`), together with proofs of the specified properties.

Machine integers are modelled as `Int`/`Nat`; monetary quantities and prices as
exact rationals (the float edge cases in the claims, such as the quotient 2.5,
are exactly representable in binary floating point, so the exact-arithmetic
model agrees with the source on every input used below).
-/

namespace QmtWeightSync

/-! ## Rounding (`QMTWeightSyncTrader._round_to_hundred`, trader.py:221-224)

The source is `int(round(volume / 100) * 100)`.  Python 3's built-in `round`
rounds to the nearest integer with ties going to the even integer
(banker's rounding). -/

/-- Python 3 `round` on an exact rational: nearest integer, ties to even. -/
def round_half_even (q : ℚ) : ℤ :=
  if q - ⌊q⌋ < 1/2 then ⌊q⌋
  else if 1/2 < q - ⌊q⌋ then ⌊q⌋ + 1
  else if ⌊q⌋ % 2 = 0 then ⌊q⌋ else ⌊q⌋ + 1

/-- `_round_to_hundred` from trader.py: `int(round(volume / 100) * 100)`. -/
def round_to_hundred (volume : ℚ) : ℤ :=
  round_half_even (volume / 100) * 100

/-- Modelled from the spec: the reference rounding the spec asserts,
round-half-AWAY-from-zero to the nearest integer ("standard rounding" at the
.5 boundary), then scaled by 100.  Stated only for comparison with the
source-derived `round_to_hundred`. -/
def round_half_away_spec (q : ℚ) : ℤ :=
  if 0 ≤ q then ⌊q + 1/2⌋ else -⌊-q + 1/2⌋

/-- Modelled from the spec: `round(x/100)*100` with ties away from zero. -/
def round_to_hundred_spec (volume : ℚ) : ℤ :=
  round_half_away_spec (volume / 100) * 100

/-! ## Order splitting (`_split_order_volume`, trader.py:242-272) -/

/-- The `while remaining > 0` loop of `_split_order_volume`.  The source loop
does not terminate when `max_per_order = 0`; it is only ever called with the
default 100000, and the guard returns `[]` in that unreachable case. -/
def split_loop (remaining maxPer : ℕ) : List ℕ :=
  if maxPer = 0 then []
  else if remaining = 0 then []
  else if maxPer < remaining then maxPer :: split_loop (remaining - maxPer) maxPer
  else [remaining]
  termination_by remaining
  decreasing_by
    have h0 : 0 < maxPer := Nat.pos_of_ne_zero (by assumption)
    omega

/-- `_split_order_volume(volume, max_per_order)` from trader.py. -/
def split_order_volume (volume : ℕ) (maxPer : ℕ := 100000) : List ℕ :=
  if volume ≤ maxPer then [volume]
  else split_loop volume maxPer

/-! ## Trading-calendar static fallback (`_is_trading_day_fallback`,
trading_calendar.py:282-310)

A date is modelled by its proleptic Gregorian ordinal (Python
`date.toordinal()`, an integer).  Ordinal 1 is a Monday, so Python's
`date.weekday()` (Monday = 0 .. Sunday = 6) is `(ordinal - 1) mod 7`. -/

/-- Python `date.weekday()`: Monday = 0, ..., Sunday = 6. -/
def pyWeekday (d : ℤ) : ℤ := (d - 1) % 7

/-- `_is_trading_day_fallback` from trading_calendar.py, parameterised by the
static `holidays` and `workdays` tables (their concrete contents live in
`utils/holiday_constants.py`, which only the claims' quantifiers range over).
The source wraps the body in try/except returning False; the body is pure set
and weekday arithmetic, which cannot fail, so the handler is not modelled. -/
def is_trading_day_fallback (holidays workdays : List ℤ) (d : ℤ) : Bool :=
  if 5 ≤ pyWeekday d then false
  else if d ∈ holidays then false
  else if d ∈ workdays then true
  else true

/-! ## Basic lemmas about the rounding -/

lemma round_half_even_intCast (n : ℤ) : round_half_even (n : ℚ) = n := by
  unfold round_half_even
  simp

/-- The distance from `round_half_even q` to `q` is at most 1/2, and a distance
of exactly 1/2 forces the result to be even. -/
lemma round_half_even_close (q : ℚ) :
    |(round_half_even q : ℚ) - q| ≤ 1/2 ∧
      (|(round_half_even q : ℚ) - q| = 1/2 → round_half_even q % 2 = 0) := by
  have hfl : (⌊q⌋ : ℚ) ≤ q := Int.floor_le q
  have hfu : q < ⌊q⌋ + 1 := Int.lt_floor_add_one q
  unfold round_half_even
  by_cases h1 : q - ⌊q⌋ < 1/2
  · simp only [if_pos h1]
    constructor
    · rw [abs_sub_comm, abs_of_nonneg (by linarith)]
      linarith
    · intro habs
      rw [abs_sub_comm, abs_of_nonneg (by linarith)] at habs
      linarith
  · simp only [if_neg h1]
    by_cases h2 : 1/2 < q - ⌊q⌋
    · simp only [if_pos h2]
      constructor
      · rw [abs_of_nonneg (by push_cast; linarith)]
        push_cast
        linarith
      · intro habs
        rw [abs_of_nonneg (by push_cast; linarith)] at habs
        push_cast at habs
        linarith
    · -- exact tie: q - ⌊q⌋ = 1/2
      have htie : q - ⌊q⌋ = 1/2 := le_antisymm (not_lt.mp h2) (not_lt.mp h1)
      simp only [if_neg h2]
      by_cases h3 : ⌊q⌋ % 2 = 0
      · simp only [if_pos h3]
        refine ⟨by rw [abs_sub_comm, abs_of_nonneg (by linarith)]; linarith, fun _ => h3⟩
      · simp only [if_neg h3]
        constructor
        · rw [abs_of_nonneg (by push_cast; linarith)]
          push_cast
          linarith
        · intro _
          omega

/-! ## C1: the target-volume rounding convention -/

/-- C1 (counterexample): the claim asserts that `_round_to_hundred` agrees with
round-half-away-from-zero (`round(x/100)*100` with standard rounding) on every
non-negative quotient.  At x = 250 the source rounds 2.5 to the even integer 2
(Python banker's rounding) and returns 200, while the claimed
half-away-from-zero reference returns 300. -/
theorem C1_half_away_counterexample :
    round_to_hundred 250 = 200 ∧ round_to_hundred_spec 250 = 300 ∧
      round_to_hundred 250 ≠ round_to_hundred_spec 250 := by
  refine ⟨?_, ?_, ?_⟩ <;>
    norm_num [round_to_hundred, round_half_even, round_to_hundred_spec,
      round_half_away_spec]

/-- C1 (amended): for every non-negative x, `_round_to_hundred x` is
round-half-to-even to the nearest 100 shares: the result is a multiple of 100
at distance at most 50 from x, and a tie at exactly the 50-share boundary is
resolved to the even multiple of 100 (a multiple of 200), not away from zero. -/
theorem C1_round_is_half_even (x : ℚ) (_hx : 0 ≤ x) :
    round_to_hundred x % 100 = 0 ∧
    |(round_to_hundred x : ℚ) - x| ≤ 50 ∧
    (|(round_to_hundred x : ℚ) - x| = 50 → round_to_hundred x % 200 = 0) := by
  obtain ⟨hle, htie⟩ := round_half_even_close (x / 100)
  have hdist : |(round_to_hundred x : ℚ) - x| = |(round_half_even (x / 100) : ℚ) - x / 100| * 100 := by
    rw [round_to_hundred]
    push_cast
    rw [show (round_half_even (x / 100) : ℚ) * 100 - x
        = ((round_half_even (x / 100) : ℚ) - x / 100) * 100 by ring]
    rw [abs_mul]
    norm_num
  refine ⟨Int.mul_emod_left _ _, ?_, ?_⟩
  · rw [hdist]
    nlinarith [abs_nonneg ((round_half_even (x / 100) : ℚ) - x / 100)]
  · intro h50
    rw [hdist] at h50
    have h12 : |(round_half_even (x / 100) : ℚ) - x / 100| = 1/2 := by linarith
    have heven := htie h12
    rw [round_to_hundred]
    omega

/-- C1 witness: the amended theorem applied at the tie point x = 250. -/
theorem C1_round_is_half_even_witness :
    0 ≤ (250 : ℚ) ∧
    (round_to_hundred 250 % 100 = 0 ∧
     |(round_to_hundred 250 : ℚ) - 250| ≤ 50 ∧
     (|(round_to_hundred 250 : ℚ) - 250| = 50 → round_to_hundred 250 % 200 = 0)) :=
  ⟨by norm_num, C1_round_is_half_even 250 (by norm_num)⟩

/-! ## C2: the static fallback tier -/

/-- C2 (code bug, evaluated at the failing input): the ordinal-6 date is a
Saturday (`weekday() = 5`); with an empty holiday table and that date in the
compensatory-workday table, `_is_trading_day_fallback` returns false, because
the weekend test precedes the workday-table test — the claim (and the code's
own comment that compensatory workdays are trading days) requires true.  The
other three conjuncts of the claim hold: a weekend not in the tables is false,
a weekday in the holiday table is false, a plain weekday is true. -/
theorem C2_fallback_weekend_workday :
    pyWeekday 6 = 5 ∧ is_trading_day_fallback [] [6] 6 = false ∧
    is_trading_day_fallback [] [] 6 = false ∧
    is_trading_day_fallback [2] [] 2 = false ∧
    is_trading_day_fallback [] [] 2 = true := by
  refine ⟨by decide, by decide, by decide, by decide, by decide⟩

/-! ## C4: order splitting -/

lemma split_loop_step {m r : ℕ} (hm : m ≠ 0) (h : m < r) :
    split_loop r m = m :: split_loop (r - m) m := by
  rw [split_loop]
  simp only [hm, if_false, show r ≠ 0 by omega, h, if_true]

lemma split_loop_last {m r : ℕ} (hm : m ≠ 0) (hr : r ≠ 0) (h : ¬ m < r) :
    split_loop r m = [r] := by
  rw [split_loop]
  simp only [hm, if_false, hr, h]

lemma split_loop_sum {m : ℕ} (hm : m ≠ 0) : ∀ r, (split_loop r m).sum = r := by
  intro r
  induction r using Nat.strong_induction_on with
  | _ r ih =>
    rw [split_loop]
    simp only [hm, if_false]
    by_cases h0 : r = 0
    · simp [h0]
    · simp only [h0, if_false]
      by_cases h1 : m < r
      · simp only [h1, if_true, List.sum_cons]
        rw [ih (r - m) (by omega)]
        omega
      · simp [h1]

lemma split_loop_le {m : ℕ} (hm : m ≠ 0) :
    ∀ r, ∀ p ∈ split_loop r m, 0 < p ∧ p ≤ m := by
  intro r
  induction r using Nat.strong_induction_on with
  | _ r ih =>
    rw [split_loop]
    simp only [hm, if_false]
    by_cases h0 : r = 0
    · simp [h0]
    · simp only [h0, if_false]
      by_cases h1 : m < r
      · simp only [h1, if_true, List.mem_cons]
        rintro p (rfl | hp)
        · omega
        · exact ih (r - m) (by omega) p hp
      · simp only [h1, if_false, List.mem_singleton]
        rintro p rfl
        omega

lemma split_loop_ne_nil {m : ℕ} (hm : m ≠ 0) {r : ℕ} (hr : r ≠ 0) :
    split_loop r m ≠ [] := by
  rw [split_loop]
  simp only [hm, if_false, hr]
  by_cases h1 : m < r <;> simp [h1]

lemma split_loop_dropLast {m : ℕ} (hm : m ≠ 0) :
    ∀ r, ∀ p ∈ (split_loop r m).dropLast, p = m := by
  intro r
  induction r using Nat.strong_induction_on with
  | _ r ih =>
    rw [split_loop]
    simp only [hm, if_false]
    by_cases h0 : r = 0
    · simp [h0]
    · simp only [h0, if_false]
      by_cases h1 : m < r
      · simp only [h1, if_true]
        have hne : split_loop (r - m) m ≠ [] := split_loop_ne_nil hm (by omega)
        rw [List.dropLast_cons_of_ne_nil hne]
        simp only [List.mem_cons]
        rintro p (rfl | hp)
        · rfl
        · exact ih (r - m) (by omega) p hp
      · simp [h1]

/-- C4: for every positive volume, the parts returned by `_split_order_volume`
sum to the input, no part exceeds 100000, every part except possibly the last
equals 100000; and the three concrete examples from the spec hold. -/
theorem C4_split_order (v : ℕ) (_hv : 0 < v) :
    ((split_order_volume v).sum = v ∧
     (∀ p ∈ split_order_volume v, p ≤ 100000) ∧
     (∀ p ∈ (split_order_volume v).dropLast, p = 100000)) ∧
    split_order_volume 250000 = [100000, 100000, 50000] ∧
    split_order_volume 80000 = [80000] ∧
    split_order_volume 100000 = [100000] := by
  have hm : (100000 : ℕ) ≠ 0 := by norm_num
  refine ⟨⟨?_, ?_, ?_⟩, ?_, ?_, ?_⟩
  · rw [split_order_volume]
    by_cases h : v ≤ 100000
    · simp [h]
    · simp only [h, if_false]
      exact split_loop_sum hm v
  · rw [split_order_volume]
    by_cases h : v ≤ 100000
    · simp [h]
    · simp only [h, if_false]
      exact fun p hp => (split_loop_le hm v p hp).2
  · rw [split_order_volume]
    by_cases h : v ≤ 100000
    · simp [h]
    · simp only [h, if_false]
      exact split_loop_dropLast hm v
  · have e1 : split_loop 250000 100000 = 100000 :: split_loop 150000 100000 := by
      rw [split_loop_step (by norm_num) (by norm_num)]
    have e2 : split_loop 150000 100000 = 100000 :: split_loop 50000 100000 := by
      rw [split_loop_step (by norm_num) (by norm_num)]
    have e3 : split_loop 50000 100000 = [50000] :=
      split_loop_last (by norm_num) (by norm_num) (by norm_num)
    rw [split_order_volume]
    norm_num [e1, e2, e3]
  · norm_num [split_order_volume]
  · norm_num [split_order_volume]

/-- C4 witness: the splitting theorem applied at v = 250000. -/
theorem C4_split_order_witness :
    0 < 250000 ∧
    (((split_order_volume 250000).sum = 250000 ∧
      (∀ p ∈ split_order_volume 250000, p ≤ 100000) ∧
      (∀ p ∈ (split_order_volume 250000).dropLast, p = 100000)) ∧
     split_order_volume 250000 = [100000, 100000, 50000] ∧
     split_order_volume 80000 = [80000] ∧
     split_order_volume 100000 = [100000]) :=
  ⟨by norm_num, C4_split_order 250000 (by norm_num)⟩

/-! ## Trader data model (trader.py)

Python dicts are modelled as association lists with pairwise-distinct keys
(`Nodup` hypotheses where the claims need the dict property); `dict.get` with
default is `find?` with a fallback value. -/

/-- One value of `get_current_position`'s result dict (trader.py:123-160). -/
structure PosInfo where
  volume : ℤ
  can_use_volume : ℤ
  market_value : ℚ
  avg_price : ℚ
deriving DecidableEq

/-- One quote snapshot entry from `xtdata.get_full_tick`: five ask and five bid
price levels. -/
structure Tick where
  askPrice : Fin 5 → ℚ
  bidPrice : Fin 5 → ℚ

/-- `target_volumes.get(stock_code, 0)` (trader.py:303). -/
def lookupTarget (target_volumes : List (String × ℤ)) (code : String) : ℤ :=
  match target_volumes.find? (fun p => p.1 == code) with
  | some p => p.2
  | none => 0

/-- `current_position.get(stock_code, {}).get('can_use_volume', 0)`
(trader.py:312). -/
def lookupCanUse (current_position : List (String × PosInfo)) (code : String) : ℤ :=
  match current_position.find? (fun p => p.1 == code) with
  | some p => p.2.can_use_volume
  | none => 0

/-- The sell-side diff loop of `execute_rebalance` (trader.py:300-308). -/
def sell_list (target_volumes : List (String × ℤ))
    (current_position : List (String × PosInfo)) : List (String × ℤ) :=
  current_position.filterMap (fun p =>
    let current_volume := p.2.can_use_volume
    let target_volume := lookupTarget target_volumes p.1
    if target_volume < current_volume then some (p.1, current_volume - target_volume)
    else none)

/-- The buy-side diff loop of `execute_rebalance` (trader.py:310-317). -/
def buy_list (target_volumes : List (String × ℤ))
    (current_position : List (String × PosInfo)) : List (String × ℤ) :=
  target_volumes.filterMap (fun p =>
    let current_volume := lookupCanUse current_position p.1
    if current_volume < p.2 then some (p.1, p.2 - current_volume)
    else none)

/-! ## Target-volume computation (`calculate_target_volume`, trader.py:162-219)

The batch `xtdata.get_full_tick` call is an oracle argument: `none` models the
call raising (the `except` branch at trader.py:187-189), `some ticks` models a
successful snapshot. -/

/-- The per-row body of the loop in `calculate_target_volume`
(trader.py:192-217): skip a row with no quote, skip a zero third-level ask
price, otherwise append the rounded target volume. -/
def ctv_step (ticks : List (String × Tick)) (total_asset : ℚ)
    (acc : List (String × ℤ)) (row : String × ℚ) : List (String × ℤ) :=
  match ticks.find? (fun q => q.1 == row.1) with
  | none => acc
  | some q =>
    let price := q.2.askPrice 2
    if price = 0 then acc
    else acc ++ [(row.1, round_to_hundred (total_asset * row.2 / price))]

/-- `calculate_target_volume(target_position, total_asset)` from trader.py:
on a batch-quote exception it returns the empty dict; otherwise it folds
`ctv_step` over the weight rows. -/
def calculate_target_volume (target_position : List (String × ℚ))
    (total_asset : ℚ) (realtime_data : Option (List (String × Tick))) :
    List (String × ℤ) :=
  match realtime_data with
  | none => []
  | some ticks => target_position.foldl (ctv_step ticks total_asset) []

/-- A stock is individually skipped by `calculate_target_volume`: either it has
no quote in the snapshot, or its third-level ask price is 0. -/
def quote_skipped (ticks : List (String × Tick)) (code : String) : Prop :=
  match ticks.find? (fun q => q.1 == code) with
  | none => True
  | some q => q.2.askPrice 2 = 0

/-! ## Association-list lemmas -/

lemma find_key_eq {β : Type} {l : List (String × β)}
    (hnd : (l.map Prod.fst).Nodup) {c : String} {v : β} (hm : (c, v) ∈ l) :
    l.find? (fun p => p.1 == c) = some (c, v) := by
  induction l with
  | nil => cases hm
  | cons a l ih =>
    simp only [List.map_cons, List.nodup_cons] at hnd
    rcases List.mem_cons.mp hm with rfl | hm'
    · simp [List.find?_cons]
    · have hne : a.1 ≠ c := by
        intro h
        exact hnd.1 (h ▸ List.mem_map_of_mem Prod.fst hm')
      rw [List.find?_cons]
      simp only [show (a.1 == c) = false from beq_eq_false_iff_ne.mpr hne]
      exact ih hnd.2 hm'

lemma lookupTarget_of_mem {tv : List (String × ℤ)}
    (hnd : (tv.map Prod.fst).Nodup) {c : String} {t : ℤ} (hm : (c, t) ∈ tv) :
    lookupTarget tv c = t := by
  rw [lookupTarget, find_key_eq hnd hm]

lemma lookupCanUse_of_mem {cur : List (String × PosInfo)}
    (hnd : (cur.map Prod.fst).Nodup) {c : String} {v : PosInfo} (hm : (c, v) ∈ cur) :
    lookupCanUse cur c = v.can_use_volume := by
  rw [lookupCanUse, find_key_eq hnd hm]

lemma lookupTarget_nonneg {tv : List (String × ℤ)}
    (h : ∀ p ∈ tv, 0 ≤ p.2) (c : String) : 0 ≤ lookupTarget tv c := by
  rw [lookupTarget]
  cases hfind : tv.find? (fun p => p.1 == c) with
  | none => exact le_refl 0
  | some p => exact h p (List.mem_of_find?_eq_some hfind)

lemma lookupCanUse_nonneg {cur : List (String × PosInfo)}
    (h : ∀ p ∈ cur, 0 ≤ p.2.can_use_volume) (c : String) : 0 ≤ lookupCanUse cur c := by
  rw [lookupCanUse]
  cases hfind : cur.find? (fun p => p.1 == c) with
  | none => exact le_refl 0
  | some p => exact h p (List.mem_of_find?_eq_some hfind)

lemma mem_sell_list_iff {tv : List (String × ℤ)} {cur : List (String × PosInfo)}
    (hndc : (cur.map Prod.fst).Nodup)
    (htv : ∀ p ∈ tv, 0 ≤ p.2) (code : String) :
    code ∈ (sell_list tv cur).map Prod.fst ↔
      lookupTarget tv code < lookupCanUse cur code := by
  constructor
  · rintro hmem
    obtain ⟨⟨c', vol⟩, hmem', rfl⟩ := List.mem_map.mp hmem
    obtain ⟨a, ha, hfa⟩ := List.mem_filterMap.mp hmem'
    simp only [sell_list] at hfa ⊢
    by_cases hlt : lookupTarget tv a.1 < a.2.can_use_volume
    · rw [if_pos hlt] at hfa
      obtain ⟨h1, _⟩ := Prod.mk.injEq .. ▸ Option.some.injEq .. ▸ hfa
      have ha' : ((c', vol).1, a.2) ∈ cur := by
        have : a = (a.1, a.2) := rfl
        rw [← h1]
        exact ha
      have := lookupCanUse_of_mem hndc ha'
      rw [this, ← h1]
      exact hlt
    · rw [if_neg hlt] at hfa
      cases hfa
  · intro hlt
    cases hfind : cur.find? (fun p => p.1 == code) with
    | none =>
      exfalso
      rw [lookupCanUse, hfind] at hlt
      exact absurd (lt_of_le_of_lt (lookupTarget_nonneg htv code) hlt) (lt_irrefl 0)
    | some p =>
      have hp : p ∈ cur := List.mem_of_find?_eq_some hfind
      have hpc : p.1 = code := by
        have := List.find?_some hfind
        exact eq_of_beq this
      have hcu : lookupCanUse cur code = p.2.can_use_volume := by
        rw [lookupCanUse, hfind]
      rw [hcu, ← hpc] at hlt
      refine List.mem_map.mpr ⟨(p.1, p.2.can_use_volume - lookupTarget tv p.1), ?_, hpc⟩
      refine List.mem_filterMap.mpr ⟨p, hp, ?_⟩
      simp only [sell_list]
      rw [if_pos hlt]

lemma mem_buy_list_iff {tv : List (String × ℤ)} {cur : List (String × PosInfo)}
    (hndt : (tv.map Prod.fst).Nodup)
    (hcv : ∀ p ∈ cur, 0 ≤ p.2.can_use_volume) (code : String) :
    code ∈ (buy_list tv cur).map Prod.fst ↔
      lookupCanUse cur code < lookupTarget tv code := by
  constructor
  · rintro hmem
    obtain ⟨⟨c', vol⟩, hmem', rfl⟩ := List.mem_map.mp hmem
    obtain ⟨a, ha, hfa⟩ := List.mem_filterMap.mp hmem'
    simp only [buy_list] at hfa ⊢
    by_cases hlt : lookupCanUse cur a.1 < a.2
    · rw [if_pos hlt] at hfa
      obtain ⟨h1, _⟩ := Prod.mk.injEq .. ▸ Option.some.injEq .. ▸ hfa
      have ha' : ((c', vol).1, a.2) ∈ tv := by
        rw [← h1]
        exact ha
      have := lookupTarget_of_mem hndt ha'
      rw [this, ← h1]
      exact hlt
    · rw [if_neg hlt] at hfa
      cases hfa
  · intro hlt
    cases hfind : tv.find? (fun p => p.1 == code) with
    | none =>
      exfalso
      rw [lookupTarget, hfind] at hlt
      exact absurd (lt_of_le_of_lt (lookupCanUse_nonneg hcv code) hlt) (lt_irrefl 0)
    | some p =>
      have hp : p ∈ tv := List.mem_of_find?_eq_some hfind
      have hpc : p.1 = code := by
        have := List.find?_some hfind
        exact eq_of_beq this
      have ht : lookupTarget tv code = p.2 := by
        rw [lookupTarget, hfind]
      rw [ht, ← hpc] at hlt
      refine List.mem_map.mpr ⟨(p.1, p.2 - lookupCanUse cur p.1), ?_, hpc⟩
      refine List.mem_filterMap.mpr ⟨p, hp, ?_⟩
      simp only [buy_list]
      rw [if_pos hlt]

/-! ## C5: the diff step is a partition -/

/-- C5: for dict-shaped inputs (distinct keys, non-negative target volumes and
holdings), a stock code is in the sell list iff its current `can_use_volume`
exceeds its target (absent keys defaulting to 0), in the buy list iff its
target exceeds its current `can_use_volume`, and never in both. -/
theorem C5_diff_partition (tv : List (String × ℤ)) (cur : List (String × PosInfo))
    (code : String)
    (hndt : (tv.map Prod.fst).Nodup) (hndc : (cur.map Prod.fst).Nodup)
    (htv : ∀ p ∈ tv, 0 ≤ p.2) (hcv : ∀ p ∈ cur, 0 ≤ p.2.can_use_volume) :
    (code ∈ (sell_list tv cur).map Prod.fst ↔
       lookupTarget tv code < lookupCanUse cur code) ∧
    (code ∈ (buy_list tv cur).map Prod.fst ↔
       lookupCanUse cur code < lookupTarget tv code) ∧
    ¬(code ∈ (sell_list tv cur).map Prod.fst ∧
        code ∈ (buy_list tv cur).map Prod.fst) := by
  have hs := mem_sell_list_iff hndc htv code
  have hb := mem_buy_list_iff hndt hcv code
  refine ⟨hs, hb, ?_⟩
  rintro ⟨h1, h2⟩
  exact absurd (hb.mp h2) (not_lt.mpr (le_of_lt (hs.mp h1)))

/-- C5 witness: the partition theorem at the spec's end-to-end example,
targets {A: 300, B: 0}, holdings {A: 100, B: 200}, checked at code "B". -/
theorem C5_diff_partition_witness :
    (([("A", (300 : ℤ)), ("B", 0)].map Prod.fst).Nodup) ∧
    (([("A", (⟨100, 100, 0, 0⟩ : PosInfo)), ("B", ⟨200, 200, 0, 0⟩)].map Prod.fst).Nodup) ∧
    (∀ p ∈ [("A", (300 : ℤ)), ("B", 0)], 0 ≤ p.2) ∧
    (∀ p ∈ [("A", (⟨100, 100, 0, 0⟩ : PosInfo)), ("B", ⟨200, 200, 0, 0⟩)], 0 ≤ p.2.can_use_volume) ∧
    (("B" ∈ (sell_list [("A", 300), ("B", 0)]
        [("A", ⟨100, 100, 0, 0⟩), ("B", ⟨200, 200, 0, 0⟩)]).map Prod.fst ↔
       lookupTarget [("A", 300), ("B", 0)] "B" <
         lookupCanUse [("A", ⟨100, 100, 0, 0⟩), ("B", ⟨200, 200, 0, 0⟩)] "B") ∧
     ("B" ∈ (buy_list [("A", 300), ("B", 0)]
        [("A", ⟨100, 100, 0, 0⟩), ("B", ⟨200, 200, 0, 0⟩)]).map Prod.fst ↔
       lookupCanUse [("A", ⟨100, 100, 0, 0⟩), ("B", ⟨200, 200, 0, 0⟩)] "B" <
         lookupTarget [("A", 300), ("B", 0)] "B") ∧
     ¬("B" ∈ (sell_list [("A", 300), ("B", 0)]
          [("A", ⟨100, 100, 0, 0⟩), ("B", ⟨200, 200, 0, 0⟩)]).map Prod.fst ∧
       "B" ∈ (buy_list [("A", 300), ("B", 0)]
          [("A", ⟨100, 100, 0, 0⟩), ("B", ⟨200, 200, 0, 0⟩)]).map Prod.fst)) :=
  ⟨by decide, by decide, by decide, by decide,
    C5_diff_partition _ _ "B" (by decide) (by decide) (by decide) (by decide)⟩

/-! ## C3: the two empty outcomes of `calculate_target_volume` -/

/-- C3 (counterexample): the claim asserts the fatal batch-quote-error result
is distinguishable from the valid all-skipped empty plan; in the source both
paths return the same empty dict.  With one weight row and a snapshot that
contains no quote for it, the error result and the all-skipped result are the
identical value `{}`. -/
theorem C3_empty_indistinguishable :
    calculate_target_volume [("A", 1)] 1000 none
        = calculate_target_volume [("A", 1)] 1000 (some []) ∧
    calculate_target_volume [("A", 1)] 1000 none = [] := ⟨rfl, rfl⟩

lemma ctv_step_of_skipped {ticks : List (String × Tick)} {total : ℚ}
    {row : String × ℚ} (h : quote_skipped ticks row.1) (acc : List (String × ℤ)) :
    ctv_step ticks total acc row = acc := by
  rw [ctv_step]
  rw [quote_skipped] at h
  cases hfind : ticks.find? (fun q => q.1 == row.1) with
  | none => rfl
  | some q =>
    rw [hfind] at h
    simp only at h
    simp [h]

lemma ctv_foldl_of_skipped {ticks : List (String × Tick)} {total : ℚ} :
    ∀ rows : List (String × ℚ), (∀ p ∈ rows, quote_skipped ticks p.1) →
      ∀ acc, rows.foldl (ctv_step ticks total) acc = acc := by
  intro rows
  induction rows with
  | nil => intro _ _; rfl
  | cons r rows ih =>
    intro h acc
    rw [List.foldl_cons, ctv_step_of_skipped (h r (List.mem_cons_self r rows)) acc]
    exact ih (fun p hp => h p (List.mem_cons_of_mem r hp)) acc

/-- C3 (amended): when the batch quote call errors `calculate_target_volume`
returns the empty plan, and when every input stock is individually skipped
(missing quote or zero third-level ask price) it also returns the empty plan;
the two outcomes are the identical empty dict and are NOT distinguishable by
the caller. -/
theorem C3_empty_outcomes (rows : List (String × ℚ)) (total : ℚ)
    (ticks : List (String × Tick)) (hskip : ∀ p ∈ rows, quote_skipped ticks p.1) :
    calculate_target_volume rows total none = [] ∧
    calculate_target_volume rows total (some ticks) = [] ∧
    calculate_target_volume rows total none
      = calculate_target_volume rows total (some ticks) := by
  have h2 : calculate_target_volume rows total (some ticks) = [] :=
    ctv_foldl_of_skipped rows hskip []
  exact ⟨rfl, h2, h2.symm⟩

/-- C3 witness: the amended theorem at one weight row and an empty snapshot. -/
theorem C3_empty_outcomes_witness :
    (∀ p ∈ [(("A" : String), (1 : ℚ))], quote_skipped [] p.1) ∧
    (calculate_target_volume [("A", 1)] 1000 none = [] ∧
     calculate_target_volume [("A", 1)] 1000 (some []) = [] ∧
     calculate_target_volume [("A", 1)] 1000 none
       = calculate_target_volume [("A", 1)] 1000 (some [])) :=
  ⟨fun _ _ => trivial, C3_empty_outcomes [("A", 1)] 1000 [] (fun _ _ => trivial)⟩

/-! ## Rebalance execution (`execute_rebalance`, trader.py:274-420)

The gateway interactions are recorded as an event trace: one `fetchTick` per
batch quote call, one `submitOrder` per `xt_trader.order_stock` call, one
`waitFills` per `wait_for_orders_completion` call (carrying its outcome).  The
source contains no cancel call at all; `cancelOrder` exists in the event type
only so that its absence is expressible.  The environment supplies the quote
snapshots (`none` models the batch call raising) and the fill-wait outcomes. -/

inductive Side where
  | buy
  | sell
deriving DecidableEq

inductive Event where
  | fetchTick (codes : List String)
  | submitOrder (side : Side) (code : String) (volume : ℤ) (price : ℚ)
  | waitFills (ok : Bool)
  | cancelOrder (code : String)
deriving DecidableEq

/-- `_is_star_market` from trader.py:226-240. -/
def is_star_market (code : String) : Bool :=
  code.startsWith "688" && code.endsWith ".SH"

/-- The order-submission loop of one phase (trader.py:332-360 for sells,
381-409 for buys): skip a stock with no quote or a zero fifth-level price,
split restricted-segment orders into at most 100000-share chunks, submit. -/
def phase_orders (side : Side) (lst : List (String × ℤ))
    (ticks : List (String × Tick)) : List Event :=
  lst.flatMap (fun p =>
    match ticks.find? (fun q => q.1 == p.1) with
    | none => []
    | some q =>
      let price := match side with
        | Side.sell => q.2.bidPrice 4
        | Side.buy => q.2.askPrice 4
      if price = 0 then []
      else if is_star_market p.1 then
        (split_order_volume p.2.toNat).map
          (fun s => Event.submitOrder side p.1 (s : ℤ) price)
      else [Event.submitOrder side p.1 p.2 price])

structure RebalanceEnv where
  sellTick : Option (List (String × Tick))
  sellWaitOk : Bool
  buyTick : Option (List (String × Tick))
  buyWaitOk : Bool

/-- One phase of `execute_rebalance`: nothing happens on an empty list; a
failed batch quote call aborts the phase after the fetch; otherwise the orders
are submitted and the phase's outcome is the fill-wait outcome. -/
def run_phase (side : Side) (lst : List (String × ℤ))
    (tick : Option (List (String × Tick))) (waitOk : Bool) : Bool × List Event :=
  if lst.isEmpty then (true, [])
  else
    match tick with
    | none => (false, [Event.fetchTick (lst.map Prod.fst)])
    | some ticks =>
      (waitOk, Event.fetchTick (lst.map Prod.fst) ::
        (phase_orders side lst ticks ++ [Event.waitFills waitOk]))

/-- `execute_rebalance(target_volumes, current_position)` from trader.py:
diff, sell phase, buy phase (only when the sell phase succeeded), returning
the final outcome together with the gateway event trace. -/
def execute_rebalance (tv : List (String × ℤ)) (cur : List (String × PosInfo))
    (env : RebalanceEnv) : Bool × List Event :=
  let sellRes := run_phase Side.sell (sell_list tv cur) env.sellTick env.sellWaitOk
  if sellRes.1 then
    let buyRes := run_phase Side.buy (buy_list tv cur) env.buyTick env.buyWaitOk
    (buyRes.1, sellRes.2 ++ buyRes.2)
  else (false, sellRes.2)

def isBuySubmit : Event → Bool
  | Event.submitOrder Side.buy _ _ _ => true
  | _ => false

def isCancel : Event → Bool
  | Event.cancelOrder _ => true
  | _ => false

/-! ## Trace lemmas -/

lemma phase_orders_shape {side : Side} {lst : List (String × ℤ)}
    {ticks : List (String × Tick)} :
    ∀ e ∈ phase_orders side lst ticks, ∃ c v pr, e = Event.submitOrder side c v pr := by
  intro e he
  rw [phase_orders] at he
  obtain ⟨a, _, he⟩ := List.mem_flatMap.mp he
  cases hfind : ticks.find? (fun q => q.1 == a.1) with
  | none => rw [hfind] at he; cases he
  | some q =>
    rw [hfind] at he
    simp only at he
    by_cases hz : (match side with
        | Side.sell => q.2.bidPrice 4
        | Side.buy => q.2.askPrice 4) = 0
    · rw [if_pos hz] at he; cases he
    · rw [if_neg hz] at he
      by_cases hstar : is_star_market a.1
      · rw [if_pos hstar] at he
        obtain ⟨s, _, rfl⟩ := List.mem_map.mp he
        exact ⟨a.1, s, _, rfl⟩
      · rw [if_neg hstar] at he
        rcases List.mem_singleton.mp he with rfl
        exact ⟨a.1, a.2, _, rfl⟩

lemma run_phase_sell_no_buy {lst : List (String × ℤ)}
    {tick : Option (List (String × Tick))} {w : Bool} :
    ∀ e ∈ (run_phase Side.sell lst tick w).2, isBuySubmit e = false := by
  intro e he
  rw [run_phase.eq_def] at he
  by_cases hemp : lst.isEmpty
  · rw [if_pos hemp] at he; cases he
  · rw [if_neg hemp] at he
    cases tick with
    | none => rcases List.mem_singleton.mp he with rfl; rfl
    | some ticks =>
      simp only [List.mem_cons, List.mem_append, List.mem_singleton] at he
      rcases he with rfl | he | rfl | h0
      · rfl
      · obtain ⟨c, v, pr, rfl⟩ := phase_orders_shape e he
        rfl
      · rfl
      · cases h0

lemma run_phase_no_cancel {side : Side} {lst : List (String × ℤ)}
    {tick : Option (List (String × Tick))} {w : Bool} :
    ∀ e ∈ (run_phase side lst tick w).2, isCancel e = false := by
  intro e he
  rw [run_phase.eq_def] at he
  by_cases hemp : lst.isEmpty
  · rw [if_pos hemp] at he; cases he
  · rw [if_neg hemp] at he
    cases tick with
    | none => rcases List.mem_singleton.mp he with rfl; rfl
    | some ticks =>
      simp only [List.mem_cons, List.mem_append, List.mem_singleton] at he
      rcases he with rfl | he | rfl | h0
      · rfl
      · obtain ⟨c, v, pr, rfl⟩ := phase_orders_shape e he
        rfl
      · rfl
      · cases h0

lemma execute_rebalance_no_cancel (tv : List (String × ℤ))
    (cur : List (String × PosInfo)) (env : RebalanceEnv) :
    ∀ e ∈ (execute_rebalance tv cur env).2, isCancel e = false := by
  intro e he
  rw [execute_rebalance] at he
  by_cases h1 : (run_phase Side.sell (sell_list tv cur) env.sellTick env.sellWaitOk).1
  · simp only [h1, if_true, List.mem_append] at he
    rcases he with he | he
    · exact run_phase_no_cancel e he
    · exact run_phase_no_cancel e he
  · simp only [h1, if_false, Bool.false_eq_true] at he
    exact run_phase_no_cancel e he

lemma run_phase_nonempty_some {side : Side} {lst : List (String × ℤ)}
    {ticks : List (String × Tick)} {w : Bool} (h : lst ≠ []) :
    run_phase side lst (some ticks) w =
      (w, Event.fetchTick (lst.map Prod.fst) ::
        (phase_orders side lst ticks ++ [Event.waitFills w])) := by
  have hemp : lst.isEmpty = false := by
    cases lst with
    | nil => exact absurd rfl h
    | cons a l => rfl
  rw [run_phase, hemp]
  rfl

/-! ## C6: sell-before-buy ordering and timeout behaviour -/

/-- C6: in every execution with a non-empty sell list, (a) if the sell-phase
fill-wait fails, `execute_rebalance` returns false, submits no buy order and
cancels nothing; (b) any buy order in the trace is preceded by a successful
sell-phase fill-wait: the trace splits as `t1 ++ [waitFills true] ++ t2` with
every buy submission in `t2`. -/
theorem C6_sell_before_buy (tv : List (String × ℤ)) (cur : List (String × PosInfo))
    (env : RebalanceEnv) (hs : sell_list tv cur ≠ []) :
    (env.sellWaitOk = false →
      (execute_rebalance tv cur env).1 = false ∧
      (∀ e ∈ (execute_rebalance tv cur env).2, isBuySubmit e = false) ∧
      (∀ e ∈ (execute_rebalance tv cur env).2, isCancel e = false)) ∧
    (∀ e ∈ (execute_rebalance tv cur env).2, isBuySubmit e = true →
      ∃ t1 t2, (execute_rebalance tv cur env).2 = t1 ++ Event.waitFills true :: t2 ∧
        ∀ e' ∈ t1, isBuySubmit e' = false) := by
  constructor
  · intro hw
    have hfail : (run_phase Side.sell (sell_list tv cur) env.sellTick env.sellWaitOk).1 = false := by
      cases htick : env.sellTick with
      | none =>
        rw [run_phase.eq_def]
        have hemp : (sell_list tv cur).isEmpty = false := by
          cases hsl : sell_list tv cur with
          | nil => exact absurd hsl hs
          | cons a l => rfl
        rw [hemp]
        rfl
      | some ticks => rw [run_phase_nonempty_some hs, hw]
    have hexec : execute_rebalance tv cur env =
        (false, (run_phase Side.sell (sell_list tv cur) env.sellTick env.sellWaitOk).2) := by
      rw [execute_rebalance, hfail]
      rfl
    rw [hexec]
    exact ⟨rfl, fun e he => run_phase_sell_no_buy e he,
      fun e he => run_phase_no_cancel e he⟩
  · intro e he hbuy
    by_cases h1 : (run_phase Side.sell (sell_list tv cur) env.sellTick env.sellWaitOk).1
    · -- the sell phase succeeded: it must have fetched and ended in waitFills true
      cases htick : env.sellTick with
      | none =>
        exfalso
        rw [run_phase.eq_def] at h1
        have hemp : (sell_list tv cur).isEmpty = false := by
          cases hsl : sell_list tv cur with
          | nil => exact absurd hsl hs
          | cons a l => rfl
        rw [hemp, htick] at h1
        simp at h1
      | some ticks =>
        have hw : env.sellWaitOk = true := by
          rw [htick, run_phase_nonempty_some hs] at h1
          exact h1
        have hexec : (execute_rebalance tv cur env).2 =
            (Event.fetchTick ((sell_list tv cur).map Prod.fst) :: phase_orders Side.sell (sell_list tv cur) ticks) ++
              Event.waitFills true ::
                (run_phase Side.buy (buy_list tv cur) env.buyTick env.buyWaitOk).2 := by
          rw [execute_rebalance, h1]
          simp only [if_true]
          rw [htick] at h1 ⊢
          rw [run_phase_nonempty_some hs, hw]
          simp
        refine ⟨_, _, hexec, ?_⟩
        intro e' he'
        rcases List.mem_cons.mp he' with rfl | he'
        · rfl
        · obtain ⟨c, v, pr, rfl⟩ := phase_orders_shape e' he'
          rfl
    · -- the sell phase failed: the trace contains no buy submission at all
      exfalso
      have hexec : execute_rebalance tv cur env =
          (false, (run_phase Side.sell (sell_list tv cur) env.sellTick env.sellWaitOk).2) := by
        rw [execute_rebalance]
        simp only [Bool.not_eq_true] at h1
        rw [h1]
        rfl
      rw [hexec] at he
      have := run_phase_sell_no_buy e he
      rw [hbuy] at this
      cases this

/-- C6 witness: one held stock, empty target, a live quote and a failing
sell-phase fill-wait. -/
theorem C6_sell_before_buy_witness :
    sell_list ([] : List (String × ℤ)) [("000001.SZ", ⟨100, 100, 0, 0⟩)] ≠ [] ∧
    ((RebalanceEnv.mk (some [("000001.SZ", ⟨fun _ => 10, fun _ => 9⟩)]) false none false).sellWaitOk = false →
      (execute_rebalance [] [("000001.SZ", ⟨100, 100, 0, 0⟩)]
        (RebalanceEnv.mk (some [("000001.SZ", ⟨fun _ => 10, fun _ => 9⟩)]) false none false)).1 = false ∧
      (∀ e ∈ (execute_rebalance [] [("000001.SZ", ⟨100, 100, 0, 0⟩)]
        (RebalanceEnv.mk (some [("000001.SZ", ⟨fun _ => 10, fun _ => 9⟩)]) false none false)).2,
          isBuySubmit e = false) ∧
      (∀ e ∈ (execute_rebalance [] [("000001.SZ", ⟨100, 100, 0, 0⟩)]
        (RebalanceEnv.mk (some [("000001.SZ", ⟨fun _ => 10, fun _ => 9⟩)]) false none false)).2,
          isCancel e = false)) ∧
    (∀ e ∈ (execute_rebalance [] [("000001.SZ", ⟨100, 100, 0, 0⟩)]
        (RebalanceEnv.mk (some [("000001.SZ", ⟨fun _ => 10, fun _ => 9⟩)]) false none false)).2,
        isBuySubmit e = true →
      ∃ t1 t2, (execute_rebalance [] [("000001.SZ", ⟨100, 100, 0, 0⟩)]
          (RebalanceEnv.mk (some [("000001.SZ", ⟨fun _ => 10, fun _ => 9⟩)]) false none false)).2
            = t1 ++ Event.waitFills true :: t2 ∧
        ∀ e' ∈ t1, isBuySubmit e' = false) := by
  have hs : sell_list ([] : List (String × ℤ)) [("000001.SZ", ⟨100, 100, 0, 0⟩)] ≠ [] := by
    rw [sell_list]
    decide
  have h := C6_sell_before_buy [] [("000001.SZ", ⟨100, 100, 0, 0⟩)]
    (RebalanceEnv.mk (some [("000001.SZ", ⟨fun _ => 10, fun _ => 9⟩)]) false none false) hs
  exact ⟨hs, h.1, h.2⟩

/-! ## C9: an already-balanced portfolio is a no-op -/

/-- C9: when every stock's target volume equals its current `can_use_volume`
(absent keys defaulting to 0 on both sides), `execute_rebalance` returns true
with an empty gateway trace: no quote fetch and no order submission. -/
theorem C9_balanced_no_op (tv : List (String × ℤ)) (cur : List (String × PosInfo))
    (env : RebalanceEnv)
    (hndt : (tv.map Prod.fst).Nodup) (hndc : (cur.map Prod.fst).Nodup)
    (heq : ∀ code, lookupTarget tv code = lookupCanUse cur code) :
    execute_rebalance tv cur env = (true, []) := by
  have hsell : sell_list tv cur = [] := by
    rw [sell_list, List.filterMap_eq_nil_iff]
    intro p hp
    have h1 : lookupCanUse cur p.1 = p.2.can_use_volume := lookupCanUse_of_mem hndc hp
    have h2 := heq p.1
    rw [h1] at h2
    simp only [h2, lt_irrefl, if_false]
  have hbuy : buy_list tv cur = [] := by
    rw [buy_list, List.filterMap_eq_nil_iff]
    intro p hp
    have h1 : lookupTarget tv p.1 = p.2 := lookupTarget_of_mem hndt hp
    have h2 := heq p.1
    rw [h1] at h2
    simp only [← h2, lt_irrefl, if_false]
  rw [execute_rebalance, hsell, hbuy]
  rfl

/-- C9 witness: one stock held at exactly its target volume. -/
theorem C9_balanced_no_op_witness :
    (([("A", (100 : ℤ))].map Prod.fst).Nodup) ∧
    (([("A", (⟨100, 100, 0, 0⟩ : PosInfo))].map Prod.fst).Nodup) ∧
    (∀ code, lookupTarget [("A", 100)] code
        = lookupCanUse [("A", ⟨100, 100, 0, 0⟩)] code) ∧
    execute_rebalance [("A", 100)] [("A", ⟨100, 100, 0, 0⟩)]
      (RebalanceEnv.mk none false none false) = (true, []) := by
  have heq : ∀ code, lookupTarget [("A", (100 : ℤ))] code
      = lookupCanUse [("A", (⟨100, 100, 0, 0⟩ : PosInfo))] code := by
    intro code
    rw [lookupTarget, lookupCanUse]
    cases hb : (("A" : String) == code) <;> simp [List.find?, hb]
  exact ⟨by decide, by decide, heq,
    C9_balanced_no_op _ _ _ (by decide) (by decide) heq⟩

/-! ## Fill-wait polling (`wait_for_orders_completion`, trader.py:422-470)

The poll results are an oracle `polls : ℕ → Except Unit (List POrder)`: poll
number k either raises (the `except` branch at trader.py:465-467) or returns
the open-order list.  Time is discrete: the k-th poll happens at elapsed time
k·interval, the loop guard is `elapsed < max_wait`, and each non-terminal
iteration sleeps one interval.  The result carries the number of polls
performed.  The source loop cannot terminate with `check_interval = 0` (wall
time never passes the guard); the guard clause covers that unreachable case,
and every theorem below assumes a positive interval. -/

/-- One row of `query_stock_orders`' result. -/
structure POrder where
  stock_code : String
  order_volume : ℤ
  traded_volume : ℤ
deriving DecidableEq

/-- `[order for order in orders if order.traded_volume < order.order_volume]`
(trader.py:449). -/
def pending_orders (orders : List POrder) : List POrder :=
  orders.filter (fun o => decide (o.traded_volume < o.order_volume))

/-- `MAX_WAIT_TIME` (trader.py:29). -/
def MAX_WAIT_TIME : ℕ := 300

/-- `CHECK_INTERVAL` (trader.py:30). -/
def CHECK_INTERVAL : ℕ := 2

/-- The `while time.time() - start_time < max_wait_time` loop of
`wait_for_orders_completion`: empty order list or no pending order succeeds
immediately; a query exception logs and keeps polling; otherwise sleep one
interval and re-poll. -/
def wait_loop (polls : ℕ → Except Unit (List POrder))
    (k elapsed max_wait interval : ℕ) : Bool × ℕ :=
  if interval = 0 then (false, 0)
  else if elapsed < max_wait then
    match polls k with
    | Except.error _ =>
      let r := wait_loop polls (k + 1) (elapsed + interval) max_wait interval
      (r.1, r.2 + 1)
    | Except.ok orders =>
      if orders.isEmpty then (true, 1)
      else if (pending_orders orders).isEmpty then (true, 1)
      else
        let r := wait_loop polls (k + 1) (elapsed + interval) max_wait interval
        (r.1, r.2 + 1)
  else (false, 0)
  termination_by max_wait - elapsed
  decreasing_by all_goals omega

/-- `wait_for_orders_completion(max_wait_time, check_interval)` from
trader.py, returning its result together with the number of polls made. -/
def wait_for_orders_completion (polls : ℕ → Except Unit (List POrder))
    (max_wait : ℕ := MAX_WAIT_TIME) (check_interval : ℕ := CHECK_INTERVAL) :
    Bool × ℕ :=
  wait_loop polls 0 0 max_wait check_interval

lemma wait_loop_success {polls : ℕ → Except Unit (List POrder)}
    {k elapsed mw i : ℕ} (hi : i ≠ 0) (hel : elapsed < mw)
    {l : List POrder} (hp : polls k = Except.ok l)
    (hfill : l.isEmpty ∨ (pending_orders l).isEmpty) :
    wait_loop polls k elapsed mw i = (true, 1) := by
  rw [wait_loop.eq_def]
  simp only [hi, if_false, hel, if_true, hp]
  rcases hfill with h | h
  · rw [if_pos h]
  · by_cases h0 : l.isEmpty
    · rw [if_pos h0]
    · rw [if_neg h0, if_pos h]

lemma wait_loop_ok_after_errors {polls : ℕ → Except Unit (List POrder)}
    {mw i : ℕ} (hi : i ≠ 0) :
    ∀ n k elapsed, (∀ m, m < n → polls (k + m) = Except.error ()) →
      polls (k + n) = Except.ok [] → elapsed + n * i < mw →
      wait_loop polls k elapsed mw i = (true, n + 1) := by
  intro n
  induction n with
  | zero =>
    intro k elapsed _ hok hlt
    have hok' : polls k = Except.ok [] := by simpa using hok
    exact wait_loop_success hi (by omega) hok' (Or.inl rfl)
  | succ n ih =>
    intro k elapsed herr hok hlt
    have h0 : polls k = Except.error () := by
      simpa using herr 0 (Nat.succ_pos n)
    have hmul : (n + 1) * i = n * i + i := by ring
    have hel : elapsed < mw := by omega
    have hrec : wait_loop polls (k + 1) (elapsed + i) mw i = (true, n + 1) := by
      refine ih (k + 1) (elapsed + i) (fun m hm => ?_) ?_ (by omega)
      · have := herr (m + 1) (by omega)
        rwa [show k + (m + 1) = k + 1 + m by ring] at this
      · rwa [show k + (n + 1) = k + 1 + n by ring] at hok
    rw [wait_loop.eq_def]
    simp only [hi, if_false, hel, if_true, h0, hrec]

lemma wait_loop_timeout {polls : ℕ → Except Unit (List POrder)} {mw i : ℕ}
    (hi : i ≠ 0)
    (hpend : ∀ k l, polls k = Except.ok l → l ≠ [] ∧ pending_orders l ≠ []) :
    ∀ d k elapsed, mw - elapsed = d → elapsed < mw + i →
      ∃ c, wait_loop polls k elapsed mw i = (false, c) ∧
        mw ≤ elapsed + c * i ∧ elapsed + c * i < mw + i := by
  intro d
  induction d using Nat.strong_induction_on with
  | _ d ih =>
    intro k elapsed hd hub
    by_cases hel : elapsed < mw
    · have hstep : ∀ c', wait_loop polls (k + 1) (elapsed + i) mw i = (false, c') →
          mw ≤ (elapsed + i) + c' * i → (elapsed + i) + c' * i < mw + i →
          mw ≤ elapsed + (c' + 1) * i ∧ elapsed + (c' + 1) * i < mw + i := by
        intro c' _ h1 h2
        have hmul : (c' + 1) * i = c' * i + i := by ring
        omega
      obtain ⟨c', hc', h1, h2⟩ :=
        ih (mw - (elapsed + i)) (by omega) (k + 1) (elapsed + i) rfl (by omega)
      cases hpoll : polls k with
      | error u =>
        refine ⟨c' + 1, ?_, (hstep c' hc' h1 h2).1, (hstep c' hc' h1 h2).2⟩
        rw [wait_loop.eq_def]
        simp only [hi, if_false, hel, if_true, hpoll, hc']
      | ok l =>
        obtain ⟨hne, hpne⟩ := hpend k l hpoll
        have he1 : l.isEmpty = false := by
          cases l with
          | nil => exact absurd rfl hne
          | cons a t => rfl
        have he2 : (pending_orders l).isEmpty = false := by
          cases hq : pending_orders l with
          | nil => exact absurd hq hpne
          | cons a t => rfl
        refine ⟨c' + 1, ?_, (hstep c' hc' h1 h2).1, (hstep c' hc' h1 h2).2⟩
        rw [wait_loop.eq_def]
        simp only [hi, if_false, hel, if_true, hpoll, he1, he2, Bool.false_eq_true, hc']
    · refine ⟨0, ?_, by omega, by omega⟩
      rw [wait_loop.eq_def]
      simp only [hi, if_false, hel]

/-! ## C7: fill-wait behaviour -/

/-- C7: with a positive ceiling and interval, (a) a first poll returning an
empty order list or only fully-traded orders succeeds immediately after one
poll with no sleep; (b) query exceptions are tolerated: errors on the first n
polls followed by a clean poll within the window still succeed; (c) if no poll
ever reports the orders filled, the loop returns failure after exactly
⌈ceiling/interval⌉ polls (mw ≤ c·i < mw + i), e.g. at most 5 polls for
ceiling 10 and interval 2. -/
theorem C7_fill_wait (polls : ℕ → Except Unit (List POrder)) (mw i : ℕ)
    (hi : 0 < i) (hmw : 0 < mw) :
    (∀ l, polls 0 = Except.ok l → (l.isEmpty ∨ (pending_orders l).isEmpty) →
       wait_for_orders_completion polls mw i = (true, 1)) ∧
    (∀ n, (∀ m, m < n → polls m = Except.error ()) → polls n = Except.ok [] →
       n * i < mw → wait_for_orders_completion polls mw i = (true, n + 1)) ∧
    ((∀ k l, polls k = Except.ok l → l ≠ [] ∧ pending_orders l ≠ []) →
       ∃ c, wait_for_orders_completion polls mw i = (false, c) ∧
         mw ≤ c * i ∧ c * i < mw + i) := by
  refine ⟨?_, ?_, ?_⟩
  · intro l hp hfill
    exact wait_loop_success (by omega) hmw hp hfill
  · intro n herr hok hlt
    exact wait_loop_ok_after_errors (by omega) n 0 0 (by simpa using herr)
      (by simpa using hok) (by omega)
  · intro hpend
    have hi' : i ≠ 0 := by omega
    obtain ⟨c, hc, h1, h2⟩ :=
      wait_loop_timeout hi' hpend (mw - 0) 0 0 rfl (by omega)
    exact ⟨c, hc, by omega, by omega⟩

/-- C7 witness: an exception on the first poll, a clean empty order list on
the second, ceiling 10 and interval 2: success after 2 polls. -/
theorem C7_fill_wait_witness :
    0 < 2 ∧ 0 < 10 ∧
    (∀ m, m < 1 →
      (fun n => if n = 0 then Except.error () else Except.ok ([] : List POrder)) m
        = Except.error ()) ∧
    (fun n => if n = 0 then Except.error () else Except.ok ([] : List POrder)) 1
      = Except.ok [] ∧
    1 * 2 < 10 ∧
    wait_for_orders_completion
      (fun n => if n = 0 then Except.error () else Except.ok ([] : List POrder)) 10 2
      = (true, 2) := by
  have herr : ∀ m, m < 1 →
      (fun n => if n = 0 then Except.error () else Except.ok ([] : List POrder)) m
        = Except.error () := by
    intro m hm
    have : m = 0 := by omega
    subst this
    rfl
  refine ⟨by norm_num, by norm_num, herr, rfl, by norm_num, ?_⟩
  exact (C7_fill_wait
    (fun n => if n = 0 then Except.error () else Except.ok ([] : List POrder))
    10 2 (by norm_num) (by norm_num)).2.1 1 herr rfl (by norm_num)

/-! ## The calendar resolution chain (`is_trading_day`,
trading_calendar.py:73-104)

Each observable step of the `try` body is an environment-supplied
`Except Unit` value, so that an exception at any step (the claim's "cache
error" etc.) is representable; the final static-fallback step is the concrete
total function `is_trading_day_fallback` (its own internal try/except cannot
fire on pure set operations).  `fetchMonth`'s payload is the Bool the source's
`_fetch_and_cache_month` returns: that helper catches every exception
internally and returns False on a failed fetch, so a fetch failure is an
`Except.ok false`, not an `Except.error`. -/

structure CalEnv where
  member1 : Except Unit Bool
  monthMissingOrExpired : Except Unit Bool
  fetchMonth : Except Unit Bool
  member2 : Except Unit Bool
  holidays : List ℤ
  workdays : List ℤ

/-- The `try` body of `is_trading_day`: Level-1 memory-cache hit, Level-2
fetch when the month is uncached or expired followed by a re-check, Level-3
static fallback. -/
def is_trading_day_body (env : CalEnv) (d : ℤ) : Except Unit Bool := do
  let m1 ← env.member1
  if m1 then
    return true
  else
    let nf ← env.monthMissingOrExpired
    let _ ← (if nf then env.fetchMonth else Except.ok false)
    let m2 ← env.member2
    if m2 then
      return true
    else
      return (is_trading_day_fallback env.holidays env.workdays d)

/-- `is_trading_day` from trading_calendar.py: the `try` body with the
`except` handler returning False. -/
def is_trading_day (env : CalEnv) (d : ℤ) : Bool :=
  match is_trading_day_body env d with
  | Except.ok b => b
  | Except.error _ => false

/-! ## C8: IsTradingDay never raises; failure behaviour -/

/-- C8 (counterexample): the claim asserts that a fetch error makes
`is_trading_day` return false.  With an empty cache, an expired month, a
FAILED remote fetch (`_fetch_and_cache_month` returns False) and the
ordinal-2 date (a Tuesday, in neither static table), the source falls through
to the static fallback and returns TRUE. -/
theorem C8_fetch_error_counterexample :
    is_trading_day
      (CalEnv.mk (Except.ok false) (Except.ok true) (Except.ok false)
        (Except.ok false) [] []) 2 = true := rfl

/-- C8 (amended): `is_trading_day` always returns a boolean (never raises);
any exception escaping the resolution tiers (cache error, fallback error)
yields false (fail-closed); a non-raising body's value is returned unchanged —
in particular a failed remote fetch is not fatal: it falls through to the
static fallback, which may return true. -/
theorem C8_never_raises_fail_closed (env : CalEnv) (d : ℤ) :
    (is_trading_day env d = true ∨ is_trading_day env d = false) ∧
    (∀ e, is_trading_day_body env d = Except.error e → is_trading_day env d = false) ∧
    (∀ b, is_trading_day_body env d = Except.ok b → is_trading_day env d = b) := by
  refine ⟨?_, ?_, ?_⟩
  · cases h : is_trading_day env d
    · exact Or.inr rfl
    · exact Or.inl rfl
  · intro e he
    rw [is_trading_day, he]
  · intro b hb
    rw [is_trading_day, hb]

/-- C8 witness: a cache lookup that raises makes `is_trading_day` return
false via the except handler. -/
theorem C8_never_raises_witness :
    is_trading_day_body
        (CalEnv.mk (Except.error ()) (Except.ok false) (Except.ok false)
          (Except.ok false) [] []) 0 = Except.error () ∧
    is_trading_day
        (CalEnv.mk (Except.error ()) (Except.ok false) (Except.ok false)
          (Except.ok false) [] []) 0 = false :=
  ⟨rfl, (C8_never_raises_fail_closed
      (CalEnv.mk (Except.error ()) (Except.ok false) (Except.ok false)
        (Except.ok false) [] []) 0).2.1 () rfl⟩

/-! ## Status store (`SchedulerStatusManager`, status_manager.py)

The persisted JSON status record; fields absent from the file are `none`.
`read_status` returning `None` (missing or unreadable file) is the `none`
argument below, matching `self.read_status() or {}`. -/

structure RunStatus where
  is_running : Option Bool
  last_run_time : Option String
  next_run_time : Option String
  last_status : Option String
  error_message : Option String
deriving DecidableEq

/-- The empty dict `{}` used when `read_status()` yields nothing. -/
def emptyStatus : RunStatus := ⟨none, none, none, none, none⟩

/-- `mark_completed(success, message)` from status_manager.py:66-79: set
`is_running` false, set `last_status` from the flag, and overwrite
`error_message` only when `message` is truthy (non-empty). -/
def mark_completed (prev : Option RunStatus) (success : Bool) (message : String) :
    RunStatus :=
  let status := prev.getD emptyStatus
  { status with
    is_running := some false
    last_status := some (if success then "success" else "failed")
    error_message := if message = "" then status.error_message else some message }

/-! ## C10: the frame effect of MarkCompleted -/

/-- C10: `mark_completed` sets `is_running := false` and `last_status`
according to the success flag; `error_message` is overwritten exactly when the
message is non-empty (so a successful run with a non-empty message stores it,
and an empty message preserves the prior run's value); the remaining persisted
fields are unchanged.  The two concrete conjuncts exhibit the notable cases. -/
theorem C10_mark_completed (prev : Option RunStatus) (success : Bool)
    (message : String) :
    (mark_completed prev success message).is_running = some false ∧
    (mark_completed prev success message).last_status
      = some (if success then "success" else "failed") ∧
    (mark_completed prev success message).error_message
      = (if message = "" then (prev.getD emptyStatus).error_message
         else some message) ∧
    (mark_completed prev success message).last_run_time
      = (prev.getD emptyStatus).last_run_time ∧
    (mark_completed prev success message).next_run_time
      = (prev.getD emptyStatus).next_run_time ∧
    (mark_completed (some ⟨some true, none, none, some "failed", some "prior"⟩)
        true "").error_message = some "prior" ∧
    (mark_completed (some ⟨some true, none, none, some "failed", some "prior"⟩)
        true "note").error_message = some "note" :=
  ⟨rfl, rfl, rfl, rfl, rfl, rfl, rfl⟩

end QmtWeightSync
